import Mathlib

/-!
Shallow embedding of the catalog reconciliation and bulk-upsert pipeline of the
amzsellmetrics backend (products router): the `POST /bulk` bulk product import
(key normalization, batch deduplication, field-precedence merge, chunked upsert
with insert/update classification), the `POST /mapping/amazon-analyzer/sync`
two-phase sku_master reconciliation, and the
`POST /mapping/amazon-analyzer/missing` placeholder ingester.

Tables are modelled as lists of rows; SQL timestamps (`updated_at = NOW()`) are
server-generated on write and are not part of the modelled row data.  Numeric
columns carry `Int` values (they are only copied and compared, never computed
with).  JavaScript `undefined`/`null` collapse to `Option.none`, matching how
the code serializes them to SQL NULL.
-/

namespace AmzSellMetrics

/-- An incoming record of the bulk product import payload.  Optional JSON
fields (absent, `null`) are `none`. -/
structure InProduct where
  name : Option String
  category : Option String
  base_cost : Option Int
  size : Option Int
  weight : Option Int
  width : Option Int
  height : Option Int
  length : Option Int
  source : Option String
  product_sku : Option String
  parent : Option String
deriving DecidableEq

/-- The string value of an optional string, with `none` read as the empty
string, as in `(p.name || '')`. -/
def orEmpty : Option String → String
  | some s => s
  | none => ""

/-- Character-wise lower-casing of a string (`String.toLowerCase`). -/
def toLowerStr (s : String) : String :=
  String.mk (s.data.map Char.toLower)

/-- Strip leading and trailing whitespace (`String.trim`). -/
def trimStr (s : String) : String :=
  String.mk
    (((s.data.dropWhile Char.isWhitespace).reverse.dropWhile
        Char.isWhitespace).reverse)

/-- Canonical natural key of an incoming product:
`(p.name || '').toLowerCase().trim()`. -/
def canonKey (p : InProduct) : String :=
  trimStr (toLowerStr (orEmpty p.name))

/-- JavaScript `Map.set`: replace the value at an existing key in place,
otherwise append a new binding (insertion order preserved). -/
def mapSet (m : List (String × InProduct)) (k : String) (v : InProduct) :
    List (String × InProduct) :=
  match m with
  | [] => [(k, v)]
  | (k0, v0) :: rest =>
    if k0 = k then (k0, v) :: rest else (k0, v0) :: mapSet rest k v

/-- One iteration of the dedup loop: skip records whose canonical key is
empty, otherwise `productMap.set(key, p)`. -/
def dedupStep (m : List (String × InProduct)) (p : InProduct) :
    List (String × InProduct) :=
  if canonKey p = "" then m else mapSet m (canonKey p) p

/-- The batch deduplicator: build the key → record map over the input in
order, then take `Array.from(productMap.values())`. -/
def dedupProducts (ps : List InProduct) : List InProduct :=
  (ps.foldl dedupStep []).map Prod.snd

/-- A stored row of the `products` table, restricted to the columns the
bulk import endpoint reads and writes. -/
structure ProductRow where
  name : String
  category : Option String
  base_cost : Option Int
  size : Option Int
  weight : Option Int
  width : Option Int
  height : Option Int
  length : Option Int
  source : String
  product_sku : Option String
  parent : Option String
deriving DecidableEq

/-- SQL `COALESCE` on two nullable values. -/
def coalesce {α : Type} : Option α → Option α → Option α
  | some a, _ => some a
  | none, b => b

/-- The row a non-conflicting `INSERT` of the bulk import produces:
values from the incoming record, with `source` defaulted by
`p.source || 'csv'`. -/
def newRow (p : InProduct) : ProductRow :=
  { name := orEmpty p.name
    category := p.category
    base_cost := p.base_cost
    size := p.size
    weight := p.weight
    width := p.width
    height := p.height
    length := p.length
    source :=
      match p.source with
      | some s => if s = "" then "csv" else s
      | none => "csv"
    product_sku := p.product_sku
    parent := p.parent }

/-- The `ON CONFLICT (name) DO UPDATE SET` clause of the bulk import:
`category` is overwritten unconditionally from the incoming record; the
fallback columns go through `COALESCE(EXCLUDED.c, products.c)`; `name` and
`source` are untouched. -/
def mergeRow (stored : ProductRow) (incoming : InProduct) : ProductRow :=
  { stored with
    category := incoming.category
    base_cost := coalesce incoming.base_cost stored.base_cost
    size := coalesce incoming.size stored.size
    weight := coalesce incoming.weight stored.weight
    width := coalesce incoming.width stored.width
    height := coalesce incoming.height stored.height
    length := coalesce incoming.length stored.length
    product_sku := coalesce incoming.product_sku stored.product_sku
    parent := coalesce incoming.parent stored.parent }

/-- Upsert of a single row keyed on the unique `name` column.  The returned
Boolean is the `RETURNING (xmax = 0) as is_insert` classification: `true`
exactly when the row was newly inserted. -/
def upsertOne : List ProductRow → InProduct → List ProductRow × Bool
  | [], p => ([newRow p], true)
  | r :: rest, p =>
    if r.name = orEmpty p.name then (mergeRow r p :: rest, false)
    else
      ((r :: (upsertOne rest p).1), (upsertOne rest p).2)

/-- Apply one chunk's single upsert statement row by row, returning the new
store and the chunk's `(added, updated)` counts from the `is_insert` flags. -/
def chunkUpsert : List ProductRow → List InProduct → List ProductRow × Nat × Nat
  | store, [] => (store, 0, 0)
  | store, p :: ps =>
    ((chunkUpsert (upsertOne store p).1 ps).1,
     if (upsertOne store p).2 then (chunkUpsert (upsertOne store p).1 ps).2.1 + 1
     else (chunkUpsert (upsertOne store p).1 ps).2.1,
     if (upsertOne store p).2 then (chunkUpsert (upsertOne store p).1 ps).2.2
     else (chunkUpsert (upsertOne store p).1 ps).2.2 + 1)

/-- Fuel-indexed chunk partitioner; each step consumes at least one element,
so any fuel at least the list's length yields the chunk decomposition. -/
def chunksOfFuel (n : Nat) : Nat → List α → List (List α)
  | _, [] => []
  | fuel + 1, x :: xs =>
    (x :: xs.take (n - 1)) :: chunksOfFuel n fuel (xs.drop (n - 1))
  | 0, _ :: _ => []

/-- Partition a list into consecutive chunks of `n` elements
(`uniqueProducts.slice(i, i + BATCH_SIZE)` for `i = 0, n, 2n, ...`). -/
def chunksOf (n : Nat) (l : List α) : List (List α) :=
  chunksOfFuel n l.length l

/-- Result of the bulk import request: the success payload
`{added, updated}` or the catch-all `{success:false, error}` which carries no
counts. -/
inductive BulkResponse where
  | ok (added updated : Nat)
  | err (msg : String)
deriving DecidableEq

/-- The sequential chunk loop.  `fail i = true` models a storage failure of
chunk `i`'s upsert statement (the statement is atomic, so a failing chunk
leaves the store as it was); the surrounding `catch` then answers with the
bare error and the already-committed chunks stay. -/
def runChunks (fail : Nat → Bool) :
    List (List InProduct) → Nat → List ProductRow → Nat → Nat →
    BulkResponse × List ProductRow
  | [], _, store, a, u => (.ok a u, store)
  | c :: cs, i, store, a, u =>
    if fail i then (.err "chunk failed", store)
    else
      runChunks fail cs (i + 1) (chunkUpsert store c).1
        (a + (chunkUpsert store c).2.1) (u + (chunkUpsert store c).2.2)

/-- Endpoint `POST /bulk`: deduplicate, chunk by 500, run the chunk loop. -/
def bulkImport (fail : Nat → Bool) (store : List ProductRow)
    (products : List InProduct) : BulkResponse × List ProductRow :=
  runChunks fail (chunksOf 500 (dedupProducts products)) 0 store 0 0

/-- Store state after applying a list of chunks in order (no failure). -/
def applyChunks (store : List ProductRow) (cs : List (List InProduct)) :
    List ProductRow :=
  cs.foldl (fun st c => (chunkUpsert st c).1) store

/-- Number of distinct non-empty canonical natural keys in a batch. -/
def distinctKeys (ps : List InProduct) : Nat :=
  ((ps.map canonKey).filter (fun k => k ≠ "")).toFinset.card

/-- A row of the `products` table as read by the sync endpoint's join
(`mpd.product_id = p.id`), restricted to the columns that query touches. -/
structure Product where
  id : Nat
  name : String
  category : Option String
  base_cost : Option Int
  size : Option Int
  parent : Option String
  product_sku : Option String
  default_custom_shipping : Option Int
  default_fbm_source : Option String
deriving DecidableEq

/-- A row of `marketplace_product_data`, restricted to the columns the sync
endpoint touches. -/
structure Mpd where
  product_id : Nat
  sku : Option String
  country_code : String
  asin : Option String
deriving DecidableEq

/-- A row of the derived `sku_master` table. -/
structure SkuRow where
  sku : String
  marketplace : String
  country_code : String
  asin : Option String
  iwasku : Option String
  name : Option String
  parent : Option String
  category : Option String
  cost : Option Int
  size : Option Int
  custom_shipping : Option Int
  fbm_source : Option String
  fulfillment : Option String
deriving DecidableEq

/-- Lookup of the product joined by `mpd.product_id = p.id`. -/
def findProduct (prods : List Product) (pid : Nat) : Option Product :=
  prods.find? (fun p => p.id = pid)

/-- The first `marketplace_product_data` row (in table order) joined with its
product that matches `sm.sku = mpd.sku AND sm.country_code =
mpd.country_code`.  SQL leaves the choice among several matches unspecified;
the embedding determinizes it to the first one. -/
def findPair (prods : List Product) :
    List Mpd → String → String → Option (Mpd × Product)
  | [], _, _ => none
  | m :: rest, sk, cc =>
    if m.sku = some sk ∧ m.country_code = cc then
      match findProduct prods m.product_id with
      | some p => some (m, p)
      | none => findPair prods rest sk cc
    else findPair prods rest sk cc

/-- Phase A of the sync (`UPDATE sku_master sm SET ... FROM
marketplace_product_data mpd JOIN products p`): overwrite the derived fields
of a matched amazon row from the joined product; unmatched rows are
untouched. -/
def refreshRow (prods : List Product) (mpds : List Mpd) (r : SkuRow) : SkuRow :=
  if r.marketplace = "amazon" then
    match findPair prods mpds r.sku r.country_code with
    | some (_, p) =>
      { r with
        name := some p.name
        parent := coalesce p.parent p.product_sku
        category := p.category
        cost := p.base_cost
        size := p.size
        custom_shipping := p.default_custom_shipping
        fbm_source := p.default_fbm_source }
    | none => r
  else r

/-- The `rowCount` of the phase A `UPDATE`: matched amazon rows. -/
def refreshCount (prods : List Product) (mpds : List Mpd)
    (tbl : List SkuRow) : Nat :=
  tbl.countP
    (fun r => r.marketplace = "amazon" &&
      (findPair prods mpds r.sku r.country_code).isSome)

/-- Key membership in `sku_master` under the uniqueness constraint
`(sku, marketplace, country_code)`. -/
def hasKey (tbl : List SkuRow) (s mk cc : String) : Bool :=
  tbl.any (fun r => r.sku = s && r.marketplace = mk && r.country_code = cc)

/-- The row phase B inserts for a mapping `m` joined with product `p`
(`s` is `m`'s non-empty SKU). -/
def mkInsertRow (m : Mpd) (p : Product) (s : String) : SkuRow :=
  { sku := s
    marketplace := "amazon"
    country_code := m.country_code
    asin := m.asin
    iwasku := p.product_sku
    name := some p.name
    parent := coalesce p.parent p.product_sku
    category := p.category
    cost := p.base_cost
    size := p.size
    custom_shipping := p.default_custom_shipping
    fbm_source := p.default_fbm_source
    fulfillment := none }

/-- Phase B of the sync (`INSERT INTO sku_master ... SELECT ... FROM mpd JOIN
products p WHERE mpd.sku IS NOT NULL AND mpd.sku != '' ON CONFLICT (sku,
marketplace, country_code) DO NOTHING RETURNING id`): walk the join rows;
each one with a non-empty SKU and no existing row for its key is appended,
and the count of appended rows is returned. -/
def insertLoop (prods : List Product) :
    List Mpd → List SkuRow → List SkuRow × Nat
  | [], tbl => (tbl, 0)
  | m :: rest, tbl =>
    match m.sku with
    | none => insertLoop prods rest tbl
    | some s =>
      if s = "" then insertLoop prods rest tbl
      else
        match findProduct prods m.product_id with
        | none => insertLoop prods rest tbl
        | some p =>
          if hasKey tbl s "amazon" m.country_code then
            insertLoop prods rest tbl
          else
            ((insertLoop prods rest (tbl ++ [mkInsertRow m p s])).1,
             (insertLoop prods rest (tbl ++ [mkInsertRow m p s])).2 + 1)

/-- The database state the sync endpoint operates on. -/
structure DbState where
  products : List Product
  mpds : List Mpd
  sku_master : List SkuRow
deriving DecidableEq

/-- The `{updated, inserted, total, withCost, withSize}` payload of the sync
response. -/
structure SyncResult where
  updated : Nat
  inserted : Nat
  total : Nat
  withCost : Nat
  withSize : Nat
deriving DecidableEq

/-- Endpoint `POST /mapping/amazon-analyzer/sync`: phase A refresh, phase B
insert, then the stats query over the channel's rows. -/
def syncEndpoint (st : DbState) : DbState × SyncResult :=
  ({ st with
      sku_master :=
        (insertLoop st.products st.mpds
          (st.sku_master.map (refreshRow st.products st.mpds))).1 },
   { updated := refreshCount st.products st.mpds st.sku_master
     inserted :=
       (insertLoop st.products st.mpds
         (st.sku_master.map (refreshRow st.products st.mpds))).2
     total :=
       ((insertLoop st.products st.mpds
         (st.sku_master.map (refreshRow st.products st.mpds))).1.filter
           (fun r => r.marketplace = "amazon")).length
     withCost :=
       ((insertLoop st.products st.mpds
         (st.sku_master.map (refreshRow st.products st.mpds))).1.filter
           (fun r => r.marketplace = "amazon" && r.cost.isSome)).length
     withSize :=
       ((insertLoop st.products st.mpds
         (st.sku_master.map (refreshRow st.products st.mpds))).1.filter
           (fun r => r.marketplace = "amazon" && r.size.isSome)).length })

/-- An entry of the `POST /mapping/amazon-analyzer/missing` payload.  Its
`marketplace` field is the country tag of the observation. -/
structure SkuEntry where
  sku : Option String
  asin : Option String
  name : Option String
  marketplace : Option String
  category : Option String
  fulfillment : Option String
deriving DecidableEq

/-- JavaScript falsiness of an optional string: `undefined`, `null` and the
empty string are falsy (`!sku`, `name || sku`, ...). -/
def strFalsy : Option String → Bool
  | none => true
  | some s => s = ""

/-- JavaScript `v || d` for a string fallback. -/
def orFallback (v : Option String) (d : String) : String :=
  match v with
  | some s => if s = "" then d else s
  | none => d

/-- JavaScript `v || null`: an empty string is normalized to `null`. -/
def truthyOpt (v : Option String) : Option String :=
  match v with
  | some s => if s = "" then none else some s
  | none => none

/-- The placeholder row the missing-reference ingester inserts for an entry
`e` whose truthy SKU is `sk` and whose `marketplace` field value is `cc`:
`INSERT INTO sku_master (sku, marketplace, country_code, asin, name,
category, fulfillment) VALUES ($1, 'amazon', $2, asin || null, name || sku,
category || 'Unknown', fulfillment || null)`; all other columns default to
NULL. -/
def mkMissingRow (sk : String) (e : SkuEntry) (cc : String) : SkuRow :=
  { sku := sk
    marketplace := "amazon"
    country_code := cc
    asin := truthyOpt e.asin
    iwasku := none
    name := some (orFallback e.name sk)
    parent := none
    category := some (orFallback e.category "Unknown")
    cost := none
    size := none
    custom_shipping := none
    fbm_source := none
    fulfillment := truthyOpt e.fulfillment }

/-- The per-entry loop of the missing-reference ingester, returning the new
table and the `(added, skipped)` counters: entries without a truthy `sku`
or `marketplace` are skipped; `ON CONFLICT DO NOTHING RETURNING id` makes an
existing `(sku, 'amazon', country_code)` key a skip and a fresh one an
append. -/
def missingLoop : List SkuEntry → List SkuRow → List SkuRow × Nat × Nat
  | [], tbl => (tbl, 0, 0)
  | e :: rest, tbl =>
    if strFalsy e.sku || strFalsy e.marketplace then
      ((missingLoop rest tbl).1,
       (missingLoop rest tbl).2.1, (missingLoop rest tbl).2.2 + 1)
    else
      if hasKey tbl (orEmpty e.sku) "amazon" (orEmpty e.marketplace) then
        ((missingLoop rest tbl).1,
         (missingLoop rest tbl).2.1, (missingLoop rest tbl).2.2 + 1)
      else
        ((missingLoop rest
            (tbl ++ [mkMissingRow (orEmpty e.sku) e (orEmpty e.marketplace)])).1,
         (missingLoop rest
            (tbl ++ [mkMissingRow (orEmpty e.sku) e (orEmpty e.marketplace)])).2.1 + 1,
         (missingLoop rest
            (tbl ++ [mkMissingRow (orEmpty e.sku) e (orEmpty e.marketplace)])).2.2)

/-- Endpoint `POST /mapping/amazon-analyzer/missing`: run the loop and answer
the added, skipped and total counts next to the new table state. -/
def missingEndpoint (tbl : List SkuRow) (skus : List SkuEntry) :
    List SkuRow × Nat × Nat × Nat :=
  ((missingLoop skus tbl).1,
   (missingLoop skus tbl).2.1, (missingLoop skus tbl).2.2, skus.length)

/-! Concrete records used by scenario theorems, counterexamples and
witnesses. -/

/-- A bulk-import record carrying only a name. -/
def mkP (s : String) : InProduct :=
  { name := some s, category := none, base_cost := none, size := none
    weight := none, width := none, height := none, length := none
    source := none, product_sku := none, parent := none }

/-- A stored product row with a category, for the category-merge
counterexample. -/
def exStored : ProductRow :=
  { name := "Gadget", category := some "Electronics", base_cost := some 7
    size := none, weight := none, width := none, height := none
    length := none, source := "csv", product_sku := some "G-1"
    parent := none }

/-- An incoming record for `exStored`'s natural key that omits `category`
(JSON absence and explicit `null` both serialize to SQL NULL). -/
def exIncoming : InProduct :=
  { name := some "Gadget", category := none, base_cost := none
    size := none, weight := none, width := none, height := none
    length := none, source := none, product_sku := none, parent := none }

/-- An incoming record with every field supplied, for the some-case
instances of the merge witness. -/
def exIncomingFull : InProduct :=
  { name := some "Gadget", category := some "Home", base_cost := some 1
    size := some 2, weight := some 3, width := some 4, height := some 5
    length := some 6, source := some "api", product_sku := some "G-2"
    parent := some "GP" }

/-- The product of the §8 sync scenario: `parent = null`,
`product_sku = "PX1"`. -/
def scProduct : Product :=
  { id := 1, name := "Scenario product", category := some "Toys"
    base_cost := some 12, size := some 2, parent := none
    product_sku := some "PX1", default_custom_shipping := none
    default_fbm_source := none }

/-- The unmatched mapping of the §8 sync scenario: `sku = "X1"`. -/
def scMpd : Mpd :=
  { product_id := 1, sku := some "X1", country_code := "US", asin := some "B0X1" }

/-- The §8 scenario channel state: one mapping, its product, empty
`sku_master`. -/
def scState : DbState :=
  { products := [scProduct], mpds := [scMpd], sku_master := [] }

/-- An already-synchronized `sku_master` row matching `scMpd`/`scProduct`,
used to instantiate refresh theorems. -/
def scRow : SkuRow :=
  mkInsertRow scMpd scProduct "X1"

/-- The §8 missing-reference scenario entry `{sku:"M1", marketplace:"amazon"}`. -/
def scEntry : SkuEntry :=
  { sku := some "M1", asin := none, name := none
    marketplace := some "amazon", category := none, fulfillment := none }

/-- An entry with every optional field present, for the placeholder-field
witness. -/
def scEntryFull : SkuEntry :=
  { sku := some "S1", asin := some "B0S1", name := some "Nice name"
    marketplace := some "de", category := some "Garden", fulfillment := some "FBA" }

/-! Helper lemmas. -/

theorem coalesce_none {α : Type} (b : Option α) : coalesce none b = b := rfl

theorem coalesce_some {α : Type} (a : α) (b : Option α) :
    coalesce (some a) b = some a := rfl

/-- C3.  For every stored product row and every incoming record on the same
natural key, the bulk-import merge keeps each fallback field (base_cost,
size, weight, width, height, length, product_sku, parent) of the stored row
when the incoming field is null, and overwrites it with the incoming value
when it is non-null. -/
theorem merge_fallback_fields (R : ProductRow) (I : InProduct) :
    ((I.base_cost = none → (mergeRow R I).base_cost = R.base_cost) ∧
      (∀ v, I.base_cost = some v → (mergeRow R I).base_cost = some v)) ∧
    ((I.size = none → (mergeRow R I).size = R.size) ∧
      (∀ v, I.size = some v → (mergeRow R I).size = some v)) ∧
    ((I.weight = none → (mergeRow R I).weight = R.weight) ∧
      (∀ v, I.weight = some v → (mergeRow R I).weight = some v)) ∧
    ((I.width = none → (mergeRow R I).width = R.width) ∧
      (∀ v, I.width = some v → (mergeRow R I).width = some v)) ∧
    ((I.height = none → (mergeRow R I).height = R.height) ∧
      (∀ v, I.height = some v → (mergeRow R I).height = some v)) ∧
    ((I.length = none → (mergeRow R I).length = R.length) ∧
      (∀ v, I.length = some v → (mergeRow R I).length = some v)) ∧
    ((I.product_sku = none → (mergeRow R I).product_sku = R.product_sku) ∧
      (∀ v, I.product_sku = some v → (mergeRow R I).product_sku = some v)) ∧
    ((I.parent = none → (mergeRow R I).parent = R.parent) ∧
      (∀ v, I.parent = some v → (mergeRow R I).parent = some v)) := by
  repeat' apply And.intro
  all_goals intros
  all_goals simp_all [mergeRow, coalesce]

/-- Witness for C3: the merge of `exIncoming` (all fallback fields null)
keeps the stored values, and the merge of `exIncomingFull` (all fallback
fields supplied) takes the incoming ones. -/
theorem merge_fallback_fields_witness :
    ((mergeRow exStored exIncoming).base_cost = exStored.base_cost ∧
      (mergeRow exStored exIncoming).size = exStored.size ∧
      (mergeRow exStored exIncoming).weight = exStored.weight ∧
      (mergeRow exStored exIncoming).width = exStored.width ∧
      (mergeRow exStored exIncoming).height = exStored.height ∧
      (mergeRow exStored exIncoming).length = exStored.length ∧
      (mergeRow exStored exIncoming).product_sku = exStored.product_sku ∧
      (mergeRow exStored exIncoming).parent = exStored.parent) ∧
    ((mergeRow exStored exIncomingFull).base_cost = some 1 ∧
      (mergeRow exStored exIncomingFull).size = some 2 ∧
      (mergeRow exStored exIncomingFull).weight = some 3 ∧
      (mergeRow exStored exIncomingFull).width = some 4 ∧
      (mergeRow exStored exIncomingFull).height = some 5 ∧
      (mergeRow exStored exIncomingFull).length = some 6 ∧
      (mergeRow exStored exIncomingFull).product_sku = some "G-2" ∧
      (mergeRow exStored exIncomingFull).parent = some "GP") :=
  ⟨⟨(merge_fallback_fields exStored exIncoming).1.1 rfl,
    (merge_fallback_fields exStored exIncoming).2.1.1 rfl,
    (merge_fallback_fields exStored exIncoming).2.2.1.1 rfl,
    (merge_fallback_fields exStored exIncoming).2.2.2.1.1 rfl,
    (merge_fallback_fields exStored exIncoming).2.2.2.2.1.1 rfl,
    (merge_fallback_fields exStored exIncoming).2.2.2.2.2.1.1 rfl,
    (merge_fallback_fields exStored exIncoming).2.2.2.2.2.2.1.1 rfl,
    (merge_fallback_fields exStored exIncoming).2.2.2.2.2.2.2.1 rfl⟩,
   ⟨(merge_fallback_fields exStored exIncomingFull).1.2 1 rfl,
    (merge_fallback_fields exStored exIncomingFull).2.1.2 2 rfl,
    (merge_fallback_fields exStored exIncomingFull).2.2.1.2 3 rfl,
    (merge_fallback_fields exStored exIncomingFull).2.2.2.1.2 4 rfl,
    (merge_fallback_fields exStored exIncomingFull).2.2.2.2.1.2 5 rfl,
    (merge_fallback_fields exStored exIncomingFull).2.2.2.2.2.1.2 6 rfl,
    (merge_fallback_fields exStored exIncomingFull).2.2.2.2.2.2.1.2 "G-2" rfl,
    (merge_fallback_fields exStored exIncomingFull).2.2.2.2.2.2.2.2 "GP" rfl⟩⟩

/-- Counterexample for C5: the stored row `exStored` has
`category = some "Electronics"`, the incoming record `exIncoming` does not
carry a category (JSON absence serializes to SQL NULL), yet the merge
replaces the stored category with null instead of keeping it: the claim's
"if it was not present, the stored value is kept" fails. -/
theorem merge_category_cex :
    (mergeRow exStored exIncoming).category = none ∧
    exStored.category = some "Electronics" :=
  ⟨rfl, rfl⟩

/-- C5 amended.  The bulk-import merge always overwrites the authoritative
`category` field with the incoming record's category value — including with
null when the incoming record omits it; absence cannot be distinguished from
an explicit null and the stored value is never kept. -/
theorem merge_category_always (R : ProductRow) (I : InProduct) :
    (mergeRow R I).category = I.category := rfl

/-- If only chunk `k` fails, the chunk loop commits chunks `i..k-1`, stops at
`k`, and answers the bare error carrying no counts. -/
theorem runChunks_err (k : Nat) :
    ∀ (cs : List (List InProduct)) (i : Nat) (store : List ProductRow)
      (a u : Nat), i ≤ k → k - i < cs.length →
      runChunks (fun j => j = k) cs i store a u =
        (.err "chunk failed", applyChunks store (cs.take (k - i)))
  | [], i, store, a, u, _, hlt => by simp at hlt
  | c :: cs, i, store, a, u, hle, hlt => by
    by_cases hik : i = k
    · subst hik
      simp [runChunks, applyChunks]
    · have hik2 : i + 1 ≤ k := by omega
      have hki : k - i = (k - (i + 1)) + 1 := by omega
      have hlt2 : k - (i + 1) < cs.length := by
        simp only [List.length_cons] at hlt; omega
      have ih := runChunks_err k cs (i + 1) (chunkUpsert store c).1
        (a + (chunkUpsert store c).2.1) (u + (chunkUpsert store c).2.2)
        hik2 hlt2
      rw [runChunks]
      rw [if_neg (by simp [hik] : ¬ (decide (i = k) = true))]
      rw [ih, hki, List.take_succ_cons]
      rfl

/-- C4 amended.  When chunk `k` of a bulk product import fails, the chunks
before `k` remain committed in the store and chunk `k` and later chunks are
not applied, but the caller only receives the bare failure response: the
counts of rows successfully processed by chunks `1..k-1` are not reported. -/
theorem bulk_partial_failure (store : List ProductRow) (ps : List InProduct)
    (k : Nat) (hk : k < (chunksOf 500 (dedupProducts ps)).length) :
    bulkImport (fun j => j = k) store ps =
      (.err "chunk failed",
       applyChunks store ((chunksOf 500 (dedupProducts ps)).take k)) := by
  have h := runChunks_err k (chunksOf 500 (dedupProducts ps)) 0 store 0 0
    (Nat.zero_le k) (by simpa using hk)
  simpa [bulkImport] using h

/-- Witness for C4's amended theorem at a concrete two-record batch whose
single chunk (index 0) fails. -/
theorem bulk_partial_failure_witness :
    0 < (chunksOf 500 (dedupProducts [mkP "a", mkP "b"])).length ∧
    bulkImport (fun j => j = 0) [] [mkP "a", mkP "b"] =
      (.err "chunk failed",
       applyChunks [] ((chunksOf 500 (dedupProducts [mkP "a", mkP "b"])).take 0)) :=
  ⟨by decide, bulk_partial_failure [] [mkP "a", mkP "b"] 0 (by decide)⟩

/-- Counterexample for C4: on a failing chunk the endpoint answers with the
bare `{success:false, error}` value, which is not an `ok added updated`
payload — the counts of previously processed rows are not reported together
with the failure as the claim states. -/
theorem bulk_err_no_counts_cex :
    (bulkImport (fun j => j = 0) [] [mkP "a", mkP "b"]).1 =
      BulkResponse.err "chunk failed" ∧
    ((bulkImport (fun j => j = 0) [] [mkP "a", mkP "b"]).1 ==
      BulkResponse.ok 0 0) = false := by
  decide

/-- C6.  In both phases of the synchronizer the written `parent` equals the
joined product's `parent` when that is non-null, and the product's own
`product_sku` otherwise; in particular the §8 scenario (one unmatched
mapping `sku="X1"`, product with `parent=null`, `product_sku="PX1"`) inserts
exactly one `sku_master` row, whose parent is `"PX1"`. -/
theorem parent_derivation :
    (∀ (prods : List Product) (mpds : List Mpd) (r : SkuRow) (m : Mpd)
        (p : Product), r.marketplace = "amazon" →
        findPair prods mpds r.sku r.country_code = some (m, p) →
        (refreshRow prods mpds r).parent = coalesce p.parent p.product_sku) ∧
    (∀ (m : Mpd) (p : Product) (s : String),
        (mkInsertRow m p s).parent = coalesce p.parent p.product_sku) ∧
    (∀ p : Product, p.parent = none →
        coalesce p.parent p.product_sku = p.product_sku) ∧
    (∀ (p : Product) (v : String), p.parent = some v →
        coalesce p.parent p.product_sku = some v) ∧
    ((syncEndpoint scState).1.sku_master = [scRow] ∧
      (syncEndpoint scState).2.inserted = 1 ∧ scRow.parent = some "PX1") := by
  refine ⟨?_, ?_, ?_, ?_, ?_, ?_, ?_⟩
  · intro prods mpds r m p hm hfp
    simp [refreshRow, hm, hfp]
  · intro m p s
    simp [mkInsertRow]
  · intro p hp
    simp [hp, coalesce]
  · intro p v hp
    simp [hp, coalesce]
  · decide
  · decide
  · decide

/-- Witness for C6: the refresh of the already-synchronized scenario row and
the null-parent coalesce, instantiated at the scenario data. -/
theorem parent_derivation_witness :
    scRow.marketplace = "amazon" ∧
    findPair [scProduct] [scMpd] scRow.sku scRow.country_code =
      some (scMpd, scProduct) ∧
    (refreshRow [scProduct] [scMpd] scRow).parent =
      coalesce scProduct.parent scProduct.product_sku ∧
    scProduct.parent = none ∧
    coalesce scProduct.parent scProduct.product_sku = scProduct.product_sku :=
  ⟨rfl, by decide,
   parent_derivation.1 [scProduct] [scMpd] scRow scMpd scProduct rfl (by decide),
   rfl,
   parent_derivation.2.2.1 scProduct rfl⟩

/-- The missing-reference loop only appends: the result is the input table
followed by fresh placeholder rows, each built by `mkMissingRow` from some
entry of the batch with truthy `sku` and `marketplace`. -/
theorem missingLoop_ext :
    ∀ (skus : List SkuEntry) (tbl : List SkuRow),
      ∃ ext, (missingLoop skus tbl).1 = tbl ++ ext ∧
        ∀ r ∈ ext, ∃ e ∈ skus, strFalsy e.sku = false ∧
          strFalsy e.marketplace = false ∧
          r = mkMissingRow (orEmpty e.sku) e (orEmpty e.marketplace)
  | [], tbl => ⟨[], by simp [missingLoop]⟩
  | e :: rest, tbl => by
    by_cases h1 : (strFalsy e.sku || strFalsy e.marketplace) = true
    · obtain ⟨ext, hext, hmem⟩ := missingLoop_ext rest tbl
      refine ⟨ext, ?_, ?_⟩
      · simp [missingLoop, h1, hext]
      · intro r hr
        obtain ⟨e', he', h⟩ := hmem r hr
        exact ⟨e', List.mem_cons_of_mem e he', h⟩
    · simp only [Bool.or_eq_true, not_or, Bool.not_eq_true] at h1
      obtain ⟨hsku, hmk⟩ := h1
      by_cases h2 :
        hasKey tbl (orEmpty e.sku) "amazon" (orEmpty e.marketplace) = true
      · obtain ⟨ext, hext, hmem⟩ := missingLoop_ext rest tbl
        refine ⟨ext, ?_, ?_⟩
        · simp [missingLoop, hsku, hmk, h2, hext]
        · intro r hr
          obtain ⟨e', he', h⟩ := hmem r hr
          exact ⟨e', List.mem_cons_of_mem e he', h⟩
      · obtain ⟨ext, hext, hmem⟩ := missingLoop_ext rest
          (tbl ++ [mkMissingRow (orEmpty e.sku) e (orEmpty e.marketplace)])
        refine ⟨mkMissingRow (orEmpty e.sku) e (orEmpty e.marketplace) :: ext,
          ?_, ?_⟩
        · rw [Bool.not_eq_true] at h2
          simp [missingLoop, hsku, hmk, h2, hext]
        · intro r hr
          rcases List.mem_cons.mp hr with hr | hr
          · exact ⟨e, List.mem_cons_self e rest, hsku, hmk, hr⟩
          · obtain ⟨e', he', h⟩ := hmem r hr
            exact ⟨e', List.mem_cons_of_mem e he', h⟩

/-- C9.  The missing-reference ingester never modifies an existing
`sku_master` row: it only appends fresh placeholder rows; an entry whose
`(sku, 'amazon', country_code)` key already exists leaves the table
untouched and increments `skipped`; and the §8 scenario — calling it twice
with `{sku:"M1", marketplace:"amazon"}` — yields `added=1, skipped=1` across
the two calls with a single row for `M1`. -/
theorem missing_never_updates :
    (∀ (skus : List SkuEntry) (tbl : List SkuRow),
        ∃ ext, (missingLoop skus tbl).1 = tbl ++ ext) ∧
    (∀ (e : SkuEntry) (rest : List SkuEntry) (tbl : List SkuRow),
        strFalsy e.sku = false → strFalsy e.marketplace = false →
        hasKey tbl (orEmpty e.sku) "amazon" (orEmpty e.marketplace) = true →
        missingLoop (e :: rest) tbl =
          ((missingLoop rest tbl).1, (missingLoop rest tbl).2.1,
           (missingLoop rest tbl).2.2 + 1)) ∧
    (missingEndpoint [] [scEntry] =
        ([mkMissingRow "M1" scEntry "amazon"], 1, 0, 1) ∧
      missingEndpoint [mkMissingRow "M1" scEntry "amazon"] [scEntry] =
        ([mkMissingRow "M1" scEntry "amazon"], 0, 1, 1)) := by
  refine ⟨?_, ?_, by decide, by decide⟩
  · intro skus tbl
    obtain ⟨ext, hext, -⟩ := missingLoop_ext skus tbl
    exact ⟨ext, hext⟩
  · intro e rest tbl hsku hmk hkey
    simp [missingLoop, hsku, hmk, hkey]

/-- Witness for C9: the second call of the scenario hits the existing key
and is counted as a skip. -/
theorem missing_never_updates_witness :
    strFalsy scEntry.sku = false ∧ strFalsy scEntry.marketplace = false ∧
    hasKey [mkMissingRow "M1" scEntry "amazon"] (orEmpty scEntry.sku) "amazon"
      (orEmpty scEntry.marketplace) = true ∧
    missingLoop [scEntry] [mkMissingRow "M1" scEntry "amazon"] =
      ((missingLoop [] [mkMissingRow "M1" scEntry "amazon"]).1,
       (missingLoop [] [mkMissingRow "M1" scEntry "amazon"]).2.1,
       (missingLoop [] [mkMissingRow "M1" scEntry "amazon"]).2.2 + 1) :=
  ⟨rfl, rfl, by decide,
   missing_never_updates.2.1 scEntry [] [mkMissingRow "M1" scEntry "amazon"]
     rfl rfl (by decide)⟩

/-- C10.  Every placeholder row the missing-reference ingester appends is
built from its entry with `marketplace = 'amazon'`, `country_code` equal to
the entry's `marketplace` field, `name` equal to the entry's name when a
non-empty one is supplied and otherwise the SKU itself, and `category` equal
to the entry's category when a non-empty one is supplied and otherwise
`'Unknown'`. -/
theorem missing_insert_fields :
    (∀ (skus : List SkuEntry) (tbl : List SkuRow),
        ∃ ext, (missingLoop skus tbl).1 = tbl ++ ext ∧
          ∀ r ∈ ext, ∃ e ∈ skus, strFalsy e.sku = false ∧
            strFalsy e.marketplace = false ∧
            r = mkMissingRow (orEmpty e.sku) e (orEmpty e.marketplace)) ∧
    (∀ (sk : String) (e : SkuEntry) (cc : String),
        (mkMissingRow sk e cc).marketplace = "amazon" ∧
        (mkMissingRow sk e cc).country_code = cc) ∧
    (∀ (sk : String) (e : SkuEntry) (cc : String) (n : String),
        e.name = some n → n ≠ "" → (mkMissingRow sk e cc).name = some n) ∧
    (∀ (sk : String) (e : SkuEntry) (cc : String),
        strFalsy e.name = true → (mkMissingRow sk e cc).name = some sk) ∧
    (∀ (sk : String) (e : SkuEntry) (cc : String) (c : String),
        e.category = some c → c ≠ "" →
          (mkMissingRow sk e cc).category = some c) ∧
    (∀ (sk : String) (e : SkuEntry) (cc : String),
        strFalsy e.category = true →
          (mkMissingRow sk e cc).category = some "Unknown") := by
  refine ⟨missingLoop_ext, ?_, ?_, ?_, ?_, ?_⟩
  · intro sk e cc
    exact ⟨rfl, rfl⟩
  · intro sk e cc n h1 h2
    simp [mkMissingRow, orFallback, h1, h2]
  · intro sk e cc h
    cases hn : e.name <;> simp_all [mkMissingRow, orFallback, strFalsy]
  · intro sk e cc c h1 h2
    simp [mkMissingRow, orFallback, h1, h2]
  · intro sk e cc h
    cases hc : e.category <;> simp_all [mkMissingRow, orFallback, strFalsy]

/-- Witness for C10 at a fully-populated entry and at the bare scenario
entry. -/
theorem missing_insert_fields_witness :
    scEntryFull.name = some "Nice name" ∧
    (mkMissingRow "S1" scEntryFull "de").name = some "Nice name" ∧
    (mkMissingRow "S1" scEntryFull "de").category = some "Garden" ∧
    strFalsy scEntry.name = true ∧
    (mkMissingRow "M1" scEntry "amazon").name = some "M1" ∧
    (mkMissingRow "M1" scEntry "amazon").category = some "Unknown" :=
  ⟨rfl,
   missing_insert_fields.2.2.1 "S1" scEntryFull "de" "Nice name" rfl (by decide),
   missing_insert_fields.2.2.2.2.1 "S1" scEntryFull "de" "Garden" rfl (by decide),
   rfl,
   missing_insert_fields.2.2.2.1 "M1" scEntry "amazon" rfl,
   missing_insert_fields.2.2.2.2.2 "M1" scEntry "amazon" rfl⟩

theorem mapSet_mem :
    ∀ (m : List (String × InProduct)) (k : String) (v : InProduct)
      (e : String × InProduct), e ∈ mapSet m k v → e ∈ m ∨ e = (k, v)
  | [], k, v, e, he => by
    simp [mapSet] at he
    exact Or.inr he
  | (k0, v0) :: rest, k, v, e, he => by
    by_cases hk : k0 = k
    · subst hk
      simp only [mapSet, if_true, List.mem_cons, if_pos] at he
      rcases he with h1 | h1
      · exact Or.inr h1
      · exact Or.inl (List.mem_cons_of_mem _ h1)
    · simp only [mapSet, if_neg hk, List.mem_cons] at he
      rcases he with h1 | h1
      · exact Or.inl (by simp [h1])
      · rcases mapSet_mem rest k v e h1 with h | h
        · exact Or.inl (List.mem_cons_of_mem _ h)
        · exact Or.inr h

theorem mapSet_keys :
    ∀ (m : List (String × InProduct)) (k : String) (v : InProduct),
      (mapSet m k v).map Prod.fst =
        if k ∈ m.map Prod.fst then m.map Prod.fst
        else m.map Prod.fst ++ [k]
  | [], k, v => by simp [mapSet]
  | (k0, v0) :: rest, k, v => by
    by_cases hk : k0 = k
    · subst hk
      simp [mapSet]
    · simp only [mapSet, if_neg hk, List.map_cons, mapSet_keys rest k v,
        List.mem_cons]
      have : (k ∈ Prod.fst (k0, v0) :: rest.map Prod.fst) ↔
          (k ∈ rest.map Prod.fst) := by
        simp only [List.mem_cons]
        constructor
        · rintro (h | h)
          · exact absurd h.symm hk
          · exact h
        · exact Or.inr
      by_cases hmem : k ∈ rest.map Prod.fst
      · simp [hmem, Ne.symm hk]
      · simp [hmem, Ne.symm hk]

theorem mapSet_not_mem :
    ∀ (m : List (String × InProduct)) (k : String) (v : InProduct),
      k ∉ m.map Prod.fst → mapSet m k v = m ++ [(k, v)]
  | [], k, v, _ => rfl
  | (k0, v0) :: rest, k, v, h => by
    have hk : k0 ≠ k := by
      intro hek
      exact h (by simp [hek])
    have hrest : k ∉ rest.map Prod.fst := by
      intro hmem
      exact h (by simp [hmem])
    simp [mapSet, hk, mapSet_not_mem rest k v hrest]

theorem mapSet_lookup_self :
    ∀ (m : List (String × InProduct)) (k : String) (v : InProduct),
      (mapSet m k v).find? (fun e => e.1 = k) = some (k, v)
  | [], k, v => by simp [mapSet]
  | (k0, v0) :: rest, k, v => by
    by_cases hk : k0 = k
    · subst hk
      simp [mapSet]
    · simp [mapSet, hk, mapSet_lookup_self rest k v]

theorem mapSet_lookup_ne :
    ∀ (m : List (String × InProduct)) (k : String) (v : InProduct)
      (k' : String), k' ≠ k →
      (mapSet m k v).find? (fun e => e.1 = k') =
        m.find? (fun e => e.1 = k')
  | [], k, v, k', hne => by simp [mapSet, Ne.symm hne]
  | (k0, v0) :: rest, k, v, k', hne => by
    by_cases hk : k0 = k
    · subst hk
      have hm : mapSet ((k0, v0) :: rest) k0 v = (k0, v) :: rest := by
        simp [mapSet]
      rw [hm, List.find?_cons_of_neg _ (by simp [Ne.symm hne]),
        List.find?_cons_of_neg _ (by simp [Ne.symm hne])]
    · have hm : mapSet ((k0, v0) :: rest) k v = (k0, v0) :: mapSet rest k v := by
        simp [mapSet, hk]
      rw [hm]
      by_cases hk' : k0 = k'
      · rw [List.find?_cons_of_pos _ (by simp [hk']),
          List.find?_cons_of_pos _ (by simp [hk'])]
      · rw [List.find?_cons_of_neg _ (by simp [hk']),
          List.find?_cons_of_neg _ (by simp [hk'])]
        exact mapSet_lookup_ne rest k v k' hne

theorem dedup_wf :
    ∀ (ps : List InProduct) (m : List (String × InProduct)),
      (∀ e ∈ m, canonKey e.2 = e.1 ∧ e.1 ≠ "") → (m.map Prod.fst).Nodup →
      (∀ e ∈ ps.foldl dedupStep m, canonKey e.2 = e.1 ∧ e.1 ≠ "") ∧
        ((ps.foldl dedupStep m).map Prod.fst).Nodup
  | [], m, h1, h2 => ⟨h1, h2⟩
  | p :: ps, m, h1, h2 => by
    rw [List.foldl_cons]
    by_cases hk : canonKey p = ""
    · have hstep : dedupStep m p = m := by simp [dedupStep, hk]
      rw [hstep]
      exact dedup_wf ps m h1 h2
    · have hstep : dedupStep m p = mapSet m (canonKey p) p := by
        simp [dedupStep, hk]
      rw [hstep]
      apply dedup_wf ps
      · intro e he
        rcases mapSet_mem _ _ _ _ he with h | h
        · exact h1 e h
        · rw [h]
          exact ⟨rfl, hk⟩
      · rw [mapSet_keys]
        by_cases hmem : canonKey p ∈ m.map Prod.fst
        · simpa [hmem] using h2
        · simp [hmem, List.nodup_append, h2]

theorem find_values :
    ∀ (m : List (String × InProduct)) (k : String),
      (∀ e ∈ m, canonKey e.2 = e.1) →
      (m.map Prod.snd).find? (fun r => canonKey r = k) =
        (m.find? (fun e => e.1 = k)).map Prod.snd
  | [], _, _ => rfl
  | (k0, v0) :: rest, k, h => by
    have hv0 : canonKey v0 = k0 := h (k0, v0) (by simp)
    by_cases hk : k0 = k
    · subst hk
      simp [hv0]
    · simp only [List.map_cons]
      rw [List.find?_cons_of_neg _ (by simp [hv0, hk]),
        List.find?_cons_of_neg _ (by simp [hk])]
      exact find_values rest k (fun e he => h e (List.mem_cons_of_mem _ he))

theorem foldl_lookup :
    ∀ (ps : List InProduct) (m : List (String × InProduct)) (k : String),
      k ≠ "" →
      (ps.foldl dedupStep m).find? (fun e => e.1 = k) =
        ((ps.reverse.find? (fun p => canonKey p = k)).map
            (fun q => (k, q))).or (m.find? (fun e => e.1 = k))
  | [], m, k, _ => by simp
  | p :: ps, m, k, hk => by
    rw [List.foldl_cons, List.reverse_cons, List.find?_append,
      foldl_lookup ps (dedupStep m p) k hk]
    cases hf : ps.reverse.find? (fun q => canonKey q = k) with
    | some q => simp
    | none =>
      by_cases hpk : canonKey p = k
      · have hne : canonKey p ≠ "" := by rw [hpk]; exact hk
        have hstep : dedupStep m p = mapSet m k p := by
          rw [← hpk]
          simp [dedupStep, hne]
        rw [List.find?_cons_of_pos _ (by simp [hpk]), hstep, mapSet_lookup_self]
        simp
      · rw [List.find?_cons_of_neg _ (by simp [hpk])]
        by_cases hp0 : canonKey p = ""
        · simp [dedupStep, hp0]
        · have hstep : dedupStep m p = mapSet m (canonKey p) p := by
            simp [dedupStep, hp0]
          rw [hstep, mapSet_lookup_ne _ _ _ _ (fun h => hpk h.symm)]
          simp

/-- The deduplicator's output carries pairwise-distinct, non-empty canonical
keys. -/
theorem dedup_out_wf (ps : List InProduct) :
    (∀ r ∈ dedupProducts ps, canonKey r ≠ "") ∧
      ((dedupProducts ps).map canonKey).Nodup := by
  have hwf := dedup_wf ps [] (by simp) (by simp)
  constructor
  · intro r hr
    rw [dedupProducts] at hr
    obtain ⟨e, he, rfl⟩ := List.mem_map.mp hr
    have h := hwf.1 e he
    rw [h.1]
    exact h.2
  · rw [dedupProducts, List.map_map]
    have heq : (ps.foldl dedupStep []).map (canonKey ∘ Prod.snd) =
        (ps.foldl dedupStep []).map Prod.fst :=
      List.map_congr_left (fun e he => (hwf.1 e he).1)
    rw [heq]
    exact hwf.2

/-- C7.  Batch deduplication is last-occurrence-wins on canonical keys: for
every non-empty canonical key, the surviving record is the last record of
the input whose trimmed, case-folded name equals that key; and records with
an empty canonical key are dropped — none reaches the output. -/
theorem dedup_last_wins (ps : List InProduct) (k : String) :
    (k ≠ "" → (dedupProducts ps).find? (fun r => canonKey r = k) =
        ps.reverse.find? (fun p => canonKey p = k)) ∧
    ∀ r ∈ dedupProducts ps, canonKey r ≠ "" := by
  have hwf := dedup_wf ps [] (by simp) (by simp)
  constructor
  · intro hk
    rw [dedupProducts, find_values _ k (fun e he => (hwf.1 e he).1),
      foldl_lookup ps [] k hk]
    cases hf : ps.reverse.find? (fun p => canonKey p = k) <;> simp
  · exact (dedup_out_wf ps).1

/-- Witness for C7: in a batch where `"  A "` and `"a"` share the canonical
key `"a"` and the middle record has an empty key, the survivor is the later
record `mkP "a"` and the empty-keyed record is dropped. -/
theorem dedup_last_wins_witness :
    ("a" : String) ≠ "" ∧
    (dedupProducts [mkP "  A ", mkP "", mkP "a"]).find?
        (fun r => canonKey r = "a") =
      [mkP "  A ", mkP "", mkP "a"].reverse.find? (fun p => canonKey p = "a") ∧
    (dedupProducts [mkP "  A ", mkP "", mkP "a"]).find?
        (fun r => canonKey r = "a") = some (mkP "a") ∧
    dedupProducts [mkP "  A ", mkP "", mkP "a"] = [mkP "a"] :=
  ⟨by decide, (dedup_last_wins [mkP "  A ", mkP "", mkP "a"] "a").1 (by decide),
   by decide, by decide⟩

theorem foldl_disjoint :
    ∀ (l : List InProduct) (m : List (String × InProduct)),
      (∀ r ∈ l, canonKey r ≠ "") →
      (m.map Prod.fst ++ l.map canonKey).Nodup →
      l.foldl dedupStep m = m ++ l.map (fun r => (canonKey r, r))
  | [], m, _, _ => by simp
  | r :: l, m, h1, h2 => by
    rw [List.foldl_cons]
    have hk : canonKey r ≠ "" := h1 r (by simp)
    have hknotin : canonKey r ∉ m.map Prod.fst := by
      intro hmem
      have hdisj := (List.nodup_append.mp h2).2.2
      exact hdisj hmem (by simp)
    have hstep : dedupStep m r = m ++ [(canonKey r, r)] := by
      simp [dedupStep, hk, mapSet_not_mem _ _ _ hknotin]
    rw [hstep, foldl_disjoint l (m ++ [(canonKey r, r)])
      (fun q hq => h1 q (by simp [hq]))
      (by
        simp only [List.map_append, List.map_cons, List.map_nil]
        rw [List.append_assoc, List.singleton_append]
        simpa using h2)]
    simp

/-- C8.  Deduplication is idempotent: applying the batch deduplicator to its
own output reproduces that output exactly. -/
theorem dedup_idem (ps : List InProduct) :
    dedupProducts (dedupProducts ps) = dedupProducts ps := by
  have hwf := dedup_out_wf ps
  rw [dedupProducts, foldl_disjoint (dedupProducts ps) [] hwf.1
    (by simpa using hwf.2)]
  simp only [List.nil_append, List.map_map]
  rw [show (Prod.snd ∘ fun r : InProduct => (canonKey r, r)) = id from rfl,
    List.map_id]

theorem chunk_counts :
    ∀ (c : List InProduct) (store : List ProductRow),
      (chunkUpsert store c).2.1 + (chunkUpsert store c).2.2 = c.length
  | [], _ => rfl
  | p :: c, store => by
    have ih := chunk_counts c (upsertOne store p).1
    by_cases hb : (upsertOne store p).2 = true
    · simp [chunkUpsert, hb]
      omega
    · simp [chunkUpsert, hb]
      omega

theorem runChunks_ok :
    ∀ (cs : List (List InProduct)) (i : Nat) (store : List ProductRow)
      (a u : Nat),
      ∃ a2 u2 st, runChunks (fun _ => false) cs i store a u =
          (BulkResponse.ok a2 u2, st) ∧
        a2 + u2 = a + u + ((cs.map List.length).sum)
  | [], i, store, a, u => ⟨a, u, store, rfl, by simp⟩
  | c :: cs, i, store, a, u => by
    obtain ⟨a2, u2, st, heq, hsum⟩ := runChunks_ok cs (i + 1)
      (chunkUpsert store c).1 (a + (chunkUpsert store c).2.1)
      (u + (chunkUpsert store c).2.2)
    refine ⟨a2, u2, st, ?_, ?_⟩
    · rw [runChunks]
      simpa using heq
    · have hc := chunk_counts c store
      simp only [List.map_cons, List.sum_cons]
      omega

theorem chunksOfFuel_sum (n : Nat) :
    ∀ (fuel : Nat) (l : List α), l.length ≤ fuel →
      ((chunksOfFuel n fuel l).map List.length).sum = l.length
  | fuel, [], _ => by cases fuel <;> simp [chunksOfFuel]
  | 0, x :: xs, h => by simp at h
  | fuel + 1, x :: xs, h => by
    have hle : (xs.drop (n - 1)).length ≤ fuel := by
      simp only [List.length_drop]
      simp only [List.length_cons] at h
      omega
    have ih := chunksOfFuel_sum n fuel (xs.drop (n - 1)) hle
    simp only [chunksOfFuel, List.map_cons, List.sum_cons, ih,
      List.length_cons, List.length_take, List.length_drop]
    omega

theorem chunksOf_sum (n : Nat) (l : List α) :
    ((chunksOf n l).map List.length).sum = l.length :=
  chunksOfFuel_sum n l.length l (le_refl _)

theorem mapSet_keys_mem (m : List (String × InProduct)) (k : String)
    (v : InProduct) (x : String) :
    x ∈ (mapSet m k v).map Prod.fst ↔ x ∈ m.map Prod.fst ∨ x = k := by
  rw [mapSet_keys]
  by_cases hmem : k ∈ m.map Prod.fst
  · simp only [if_pos hmem]
    constructor
    · exact Or.inl
    · rintro (h | rfl)
      · exact h
      · exact hmem
  · simp only [if_neg hmem, List.mem_append, List.mem_singleton]

theorem key_mem_foldl :
    ∀ (ps : List InProduct) (m : List (String × InProduct)) (x : String),
      x ∈ (ps.foldl dedupStep m).map Prod.fst ↔
        x ∈ m.map Prod.fst ∨ (x ≠ "" ∧ x ∈ ps.map canonKey)
  | [], m, x => by simp
  | p :: ps, m, x => by
    rw [List.foldl_cons]
    by_cases hk : canonKey p = ""
    · have hstep : dedupStep m p = m := by simp [dedupStep, hk]
      rw [hstep, key_mem_foldl ps m x, List.map_cons]
      simp only [List.mem_cons]
      constructor
      · rintro (h | ⟨hx, h⟩)
        · exact Or.inl h
        · exact Or.inr ⟨hx, Or.inr h⟩
      · rintro (h | ⟨hx, (rfl | h)⟩)
        · exact Or.inl h
        · exact absurd hk hx
        · exact Or.inr ⟨hx, h⟩
    · have hstep : dedupStep m p = mapSet m (canonKey p) p := by
        simp [dedupStep, hk]
      rw [hstep, key_mem_foldl ps (mapSet m (canonKey p) p) x,
        mapSet_keys_mem, List.map_cons]
      simp only [List.mem_cons]
      constructor
      · rintro ((h | rfl) | ⟨hx, h⟩)
        · exact Or.inl h
        · exact Or.inr ⟨hk, Or.inl rfl⟩
        · exact Or.inr ⟨hx, Or.inr h⟩
      · rintro (h | ⟨hx, (rfl | h)⟩)
        · exact Or.inl (Or.inl h)
        · exact Or.inl (Or.inr rfl)
        · exact Or.inr ⟨hx, h⟩

/-- The deduplicator's output length is the number of distinct non-empty
canonical keys in its input. -/
theorem dedup_length (ps : List InProduct) :
    (dedupProducts ps).length = distinctKeys ps := by
  have hwf := dedup_wf ps [] (by simp) (by simp)
  have hlen : (dedupProducts ps).length =
      ((ps.foldl dedupStep []).map Prod.fst).length := by
    rw [dedupProducts]
    simp
  rw [hlen, ← List.toFinset_card_of_nodup hwf.2, distinctKeys]
  congr 1
  apply Finset.ext
  intro x
  simp only [List.mem_toFinset]
  rw [key_mem_foldl ps [] x, List.mem_filter]
  simp [and_comm]

/-- C2.  A bulk product import with no chunk failure answers an
`{added, updated}` payload whose sum is exactly the number of distinct
non-empty canonical natural keys (trimmed, case-folded names) of the input
batch: each surviving deduplicated record is applied and classified as
created or updated exactly once by the upsert's own per-row `is_insert`
flag. -/
theorem bulk_counts (store : List ProductRow) (ps : List InProduct) :
    ∃ a u st, bulkImport (fun _ => false) store ps =
        (BulkResponse.ok a u, st) ∧
      a + u = distinctKeys ps := by
  obtain ⟨a, u, st, heq, hsum⟩ :=
    runChunks_ok (chunksOf 500 (dedupProducts ps)) 0 store 0 0
  refine ⟨a, u, st, heq, ?_⟩
  rw [hsum, chunksOf_sum, dedup_length]
  omega

theorem refresh_keys (prods : List Product) (mpds : List Mpd) (r : SkuRow) :
    (refreshRow prods mpds r).sku = r.sku ∧
    (refreshRow prods mpds r).marketplace = r.marketplace ∧
    (refreshRow prods mpds r).country_code = r.country_code := by
  rw [refreshRow]
  by_cases hm : r.marketplace = "amazon"
  · rw [if_pos hm]
    cases hfp : findPair prods mpds r.sku r.country_code with
    | none => exact ⟨rfl, rfl, rfl⟩
    | some mp =>
      obtain ⟨m, p⟩ := mp
      exact ⟨rfl, rfl, rfl⟩
  · rw [if_neg hm]
    exact ⟨rfl, rfl, rfl⟩

theorem refresh_idem (prods : List Product) (mpds : List Mpd) (r : SkuRow) :
    refreshRow prods mpds (refreshRow prods mpds r) = refreshRow prods mpds r := by
  by_cases hm : r.marketplace = "amazon"
  · cases hfp : findPair prods mpds r.sku r.country_code with
    | none =>
      have hid : refreshRow prods mpds r = r := by
        rw [refreshRow, if_pos hm, hfp]
      rw [hid]
      exact hid
    | some mp =>
      obtain ⟨m, p⟩ := mp
      have hr1 : refreshRow prods mpds r =
          { r with
            name := some p.name
            parent := coalesce p.parent p.product_sku
            category := p.category
            cost := p.base_cost
            size := p.size
            custom_shipping := p.default_custom_shipping
            fbm_source := p.default_fbm_source } := by
        rw [refreshRow, if_pos hm, hfp]
      rw [hr1, refreshRow]
      rw [if_pos (show ({ r with
            name := some p.name
            parent := coalesce p.parent p.product_sku
            category := p.category
            cost := p.base_cost
            size := p.size
            custom_shipping := p.default_custom_shipping
            fbm_source := p.default_fbm_source } : SkuRow).marketplace = "amazon" from hm)]
      rw [show ({ r with
            name := some p.name
            parent := coalesce p.parent p.product_sku
            category := p.category
            cost := p.base_cost
            size := p.size
            custom_shipping := p.default_custom_shipping
            fbm_source := p.default_fbm_source } : SkuRow).sku = r.sku from rfl]
      rw [show ({ r with
            name := some p.name
            parent := coalesce p.parent p.product_sku
            category := p.category
            cost := p.base_cost
            size := p.size
            custom_shipping := p.default_custom_shipping
            fbm_source := p.default_fbm_source } : SkuRow).country_code =
          r.country_code from rfl]
      rw [hfp]
  · have hid : refreshRow prods mpds r = r := by
      rw [refreshRow, if_neg hm]
    rw [hid]
    exact hid

theorem hasKey_append (t1 t2 : List SkuRow) (s mk cc : String) :
    hasKey (t1 ++ t2) s mk cc = (hasKey t1 s mk cc || hasKey t2 s mk cc) := by
  simp [hasKey, List.any_append]

theorem map_refresh_id (prods : List Product) (mpds : List Mpd)
    (tbl : List SkuRow) (h : ∀ r ∈ tbl, refreshRow prods mpds r = r) :
    tbl.map (refreshRow prods mpds) = tbl := by
  rw [List.map_congr_left h]
  simp

theorem findPair_passes (prods : List Product) :
    ∀ (pre l : List Mpd) (sk cc : String),
      (∀ x ∈ pre, x.sku = some sk → x.country_code = cc →
        findProduct prods x.product_id = none) →
      findPair prods (pre ++ l) sk cc = findPair prods l sk cc
  | [], l, sk, cc, _ => rfl
  | m :: pre, l, sk, cc, h => by
    rw [List.cons_append]
    have htail := findPair_passes prods pre l sk cc
      (fun x hx => h x (List.mem_cons_of_mem _ hx))
    by_cases hc : m.sku = some sk ∧ m.country_code = cc
    · have hnone := h m (by simp) hc.1 hc.2
      simp only [findPair, if_pos hc, hnone]
      exact htail
    · simp only [findPair, if_neg hc]
      exact htail

theorem refresh_fixed_of_insert (prods : List Product) (mpds0 : List Mpd)
    (pre rest : List Mpd) (m : Mpd) (p : Product) (s : String)
    (heq : mpds0 = pre ++ m :: rest)
    (hsku : m.sku = some s)
    (hp : findProduct prods m.product_id = some p)
    (hpre : ∀ x ∈ pre, x.sku = some s → x.country_code = m.country_code →
      findProduct prods x.product_id = none) :
    refreshRow prods mpds0 (mkInsertRow m p s) = mkInsertRow m p s := by
  have hfp : findPair prods mpds0 s m.country_code = some (m, p) := by
    rw [heq, findPair_passes prods pre _ s m.country_code hpre]
    simp [findPair, hsku, hp]
  rw [refreshRow,
    if_pos (show (mkInsertRow m p s).marketplace = "amazon" from rfl),
    show (mkInsertRow m p s).sku = s from rfl,
    show (mkInsertRow m p s).country_code = m.country_code from rfl, hfp]
  rfl

theorem insertLoop_spec (prods : List Product) (mpds0 : List Mpd) :
    ∀ (suf pre : List Mpd) (tbl : List SkuRow),
      mpds0 = pre ++ suf →
      (∀ m ∈ pre, ∀ s, m.sku = some s → s ≠ "" →
        (findProduct prods m.product_id).isSome = true →
        hasKey tbl s "amazon" m.country_code = true) →
      ∃ ext, (insertLoop prods suf tbl).1 = tbl ++ ext ∧
        (∀ r ∈ ext, refreshRow prods mpds0 r = r) ∧
        (∀ m ∈ suf, ∀ s, m.sku = some s → s ≠ "" →
          (findProduct prods m.product_id).isSome = true →
          hasKey (insertLoop prods suf tbl).1 s "amazon" m.country_code = true)
  | [], pre, tbl, heq, hpre =>
    ⟨[], by simp [insertLoop], by simp, by simp⟩
  | m :: rest, pre, tbl, heq, hpre => by
    have heq' : mpds0 = (pre ++ [m]) ++ rest := by
      rw [heq, List.append_assoc, List.singleton_append]
    cases hsku : m.sku with
    | none =>
      have hpre' : ∀ x ∈ pre ++ [m], ∀ s, x.sku = some s → s ≠ "" →
          (findProduct prods x.product_id).isSome = true →
          hasKey tbl s "amazon" x.country_code = true := by
        intro x hx s h1 h2 h3
        rcases List.mem_append.mp hx with hx | hx
        · exact hpre x hx s h1 h2 h3
        · rw [List.mem_singleton.mp hx] at h1
          rw [hsku] at h1
          cases h1
      obtain ⟨ext, hext, hfix, hcov⟩ :=
        insertLoop_spec prods mpds0 rest (pre ++ [m]) tbl heq' hpre'
      have hstep : insertLoop prods (m :: rest) tbl =
          insertLoop prods rest tbl := by
        simp [insertLoop, hsku]
      refine ⟨ext, by rw [hstep]; exact hext, hfix, ?_⟩
      intro x hx s h1 h2 h3
      rcases List.mem_cons.mp hx with rfl | hx
      · rw [hsku] at h1
        cases h1
      · rw [hstep]
        exact hcov x hx s h1 h2 h3
    | some s0 =>
      by_cases hs0 : s0 = ""
      · have hpre' : ∀ x ∈ pre ++ [m], ∀ s, x.sku = some s → s ≠ "" →
            (findProduct prods x.product_id).isSome = true →
            hasKey tbl s "amazon" x.country_code = true := by
          intro x hx s h1 h2 h3
          rcases List.mem_append.mp hx with hx | hx
          · exact hpre x hx s h1 h2 h3
          · rw [List.mem_singleton.mp hx] at h1
            rw [hsku] at h1
            cases h1
            exact absurd hs0 h2
        obtain ⟨ext, hext, hfix, hcov⟩ :=
          insertLoop_spec prods mpds0 rest (pre ++ [m]) tbl heq' hpre'
        have hstep : insertLoop prods (m :: rest) tbl =
            insertLoop prods rest tbl := by
          simp [insertLoop, hsku, hs0]
        refine ⟨ext, by rw [hstep]; exact hext, hfix, ?_⟩
        intro x hx s h1 h2 h3
        rcases List.mem_cons.mp hx with rfl | hx
        · rw [hsku] at h1
          cases h1
          exact absurd hs0 h2
        · rw [hstep]
          exact hcov x hx s h1 h2 h3
      · cases hfp : findProduct prods m.product_id with
        | none =>
          have hpre' : ∀ x ∈ pre ++ [m], ∀ s, x.sku = some s → s ≠ "" →
              (findProduct prods x.product_id).isSome = true →
              hasKey tbl s "amazon" x.country_code = true := by
            intro x hx s h1 h2 h3
            rcases List.mem_append.mp hx with hx | hx
            · exact hpre x hx s h1 h2 h3
            · rw [List.mem_singleton.mp hx, hfp] at h3
              cases h3
          obtain ⟨ext, hext, hfix, hcov⟩ :=
            insertLoop_spec prods mpds0 rest (pre ++ [m]) tbl heq' hpre'
          have hstep : insertLoop prods (m :: rest) tbl =
              insertLoop prods rest tbl := by
            simp [insertLoop, hsku, hs0, hfp]
          refine ⟨ext, by rw [hstep]; exact hext, hfix, ?_⟩
          intro x hx s h1 h2 h3
          rcases List.mem_cons.mp hx with rfl | hx
          · rw [hfp] at h3
            cases h3
          · rw [hstep]
            exact hcov x hx s h1 h2 h3
        | some p =>
          by_cases hkey : hasKey tbl s0 "amazon" m.country_code = true
          · have hpre' : ∀ x ∈ pre ++ [m], ∀ s, x.sku = some s → s ≠ "" →
                (findProduct prods x.product_id).isSome = true →
                hasKey tbl s "amazon" x.country_code = true := by
              intro x hx s h1 h2 h3
              rcases List.mem_append.mp hx with hx | hx
              · exact hpre x hx s h1 h2 h3
              · rw [List.mem_singleton.mp hx] at h1 ⊢
                rw [hsku] at h1
                cases h1
                exact hkey
            obtain ⟨ext, hext, hfix, hcov⟩ :=
              insertLoop_spec prods mpds0 rest (pre ++ [m]) tbl heq' hpre'
            have hstep : insertLoop prods (m :: rest) tbl =
                insertLoop prods rest tbl := by
              simp [insertLoop, hsku, hs0, hfp, hkey]
            refine ⟨ext, by rw [hstep]; exact hext, hfix, ?_⟩
            intro x hx s h1 h2 h3
            rcases List.mem_cons.mp hx with rfl | hx
            · rw [hsku] at h1
              cases h1
              rw [hstep, hext, hasKey_append, hkey]
              rfl
            · rw [hstep]
              exact hcov x hx s h1 h2 h3
          · have hrowkey : hasKey (tbl ++ [mkInsertRow m p s0]) s0 "amazon"
                m.country_code = true := by
              rw [hasKey_append]
              have : hasKey [mkInsertRow m p s0] s0 "amazon"
                  m.country_code = true := by
                simp [hasKey, mkInsertRow]
              rw [this, Bool.or_true]
            have hpre' : ∀ x ∈ pre ++ [m], ∀ s, x.sku = some s → s ≠ "" →
                (findProduct prods x.product_id).isSome = true →
                hasKey (tbl ++ [mkInsertRow m p s0]) s "amazon"
                  x.country_code = true := by
              intro x hx s h1 h2 h3
              rcases List.mem_append.mp hx with hx | hx
              · rw [hasKey_append, hpre x hx s h1 h2 h3]
                rfl
              · rw [List.mem_singleton.mp hx] at h1 ⊢
                rw [hsku] at h1
                cases h1
                exact hrowkey
            obtain ⟨ext, hext, hfix, hcov⟩ := insertLoop_spec prods mpds0 rest
              (pre ++ [m]) (tbl ++ [mkInsertRow m p s0]) heq' hpre'
            have hstep : (insertLoop prods (m :: rest) tbl).1 =
                (insertLoop prods rest (tbl ++ [mkInsertRow m p s0])).1 := by
              simp [insertLoop, hsku, hs0, hfp, hkey]
            have hprenone : ∀ x ∈ pre, x.sku = some s0 →
                x.country_code = m.country_code →
                findProduct prods x.product_id = none := by
              intro x hx h1 h2
              cases hfp' : findProduct prods x.product_id with
              | none => rfl
              | some q =>
                have hk := hpre x hx s0 h1 hs0 (by simp [hfp'])
                rw [h2] at hk
                rw [hk] at hkey
                exact absurd rfl hkey
            have hfixrow : refreshRow prods mpds0 (mkInsertRow m p s0) =
                mkInsertRow m p s0 :=
              refresh_fixed_of_insert prods mpds0 pre rest m p s0 heq hsku
                hfp hprenone
            refine ⟨mkInsertRow m p s0 :: ext, ?_, ?_, ?_⟩
            · rw [hstep, hext, List.append_assoc, List.singleton_append]
            · intro r hr
              rcases List.mem_cons.mp hr with rfl | hr
              · exact hfixrow
              · exact hfix r hr
            · intro x hx s h1 h2 h3
              rcases List.mem_cons.mp hx with rfl | hx
              · rw [hsku] at h1
                cases h1
                rw [hstep, hext, hasKey_append, hrowkey]
                rfl
              · rw [hstep]
                exact hcov x hx s h1 h2 h3

theorem insertLoop_noop (prods : List Product) :
    ∀ (mpds : List Mpd) (tbl : List SkuRow),
      (∀ m ∈ mpds, ∀ s, m.sku = some s → s ≠ "" →
        (findProduct prods m.product_id).isSome = true →
        hasKey tbl s "amazon" m.country_code = true) →
      insertLoop prods mpds tbl = (tbl, 0)
  | [], tbl, _ => rfl
  | m :: rest, tbl, h => by
    have htail := insertLoop_noop prods rest tbl
      (fun x hx => h x (List.mem_cons_of_mem _ hx))
    cases hsku : m.sku with
    | none => simp [insertLoop, hsku, htail]
    | some s =>
      by_cases hs : s = ""
      · simp [insertLoop, hsku, hs, htail]
      · cases hfp : findProduct prods m.product_id with
        | none => simp [insertLoop, hsku, hs, hfp, htail]
        | some p =>
          have hkey := h m (by simp) s hsku hs (by simp [hfp])
          simp [insertLoop, hsku, hs, hfp, hkey, htail]

/-- C1.  Running the reconciliation synchronizer twice in succession with
unchanged `products` and `marketplace_product_data` produces zero inserts on
the second run and leaves the `sku_master` table exactly as it was after the
first run. -/
theorem sync_idem (st : DbState) :
    (syncEndpoint (syncEndpoint st).1).2.inserted = 0 ∧
    (syncEndpoint (syncEndpoint st).1).1.sku_master =
      (syncEndpoint st).1.sku_master := by
  obtain ⟨ext, hext, hfix, hcov⟩ := insertLoop_spec st.products st.mpds
    st.mpds [] (st.sku_master.map (refreshRow st.products st.mpds))
    (by simp) (by simp)
  have hfix1 : ∀ r ∈ st.sku_master.map (refreshRow st.products st.mpds),
      refreshRow st.products st.mpds r = r := by
    intro r hr
    obtain ⟨r0, hr0, rfl⟩ := List.mem_map.mp hr
    exact refresh_idem st.products st.mpds r0
  have hmap2 : ((st.sku_master.map (refreshRow st.products st.mpds)) ++
        ext).map (refreshRow st.products st.mpds) =
      (st.sku_master.map (refreshRow st.products st.mpds)) ++ ext := by
    rw [List.map_append, map_refresh_id _ _ _ hfix1, map_refresh_id _ _ _ hfix]
  have hcov2 : ∀ m ∈ st.mpds, ∀ s, m.sku = some s → s ≠ "" →
      (findProduct st.products m.product_id).isSome = true →
      hasKey ((st.sku_master.map (refreshRow st.products st.mpds)) ++ ext) s
        "amazon" m.country_code = true := by
    intro m hm s h1 h2 h3
    have h := hcov m hm s h1 h2 h3
    rwa [hext] at h
  have hnoop := insertLoop_noop st.products st.mpds _ hcov2
  have hs1 : (syncEndpoint st).1.sku_master =
      (st.sku_master.map (refreshRow st.products st.mpds)) ++ ext := hext
  constructor
  · show (insertLoop (syncEndpoint st).1.products (syncEndpoint st).1.mpds
      ((syncEndpoint st).1.sku_master.map
        (refreshRow (syncEndpoint st).1.products
          (syncEndpoint st).1.mpds))).2 = 0
    rw [show (syncEndpoint st).1.products = st.products from rfl,
      show (syncEndpoint st).1.mpds = st.mpds from rfl, hs1, hmap2, hnoop]
  · show (insertLoop (syncEndpoint st).1.products (syncEndpoint st).1.mpds
      ((syncEndpoint st).1.sku_master.map
        (refreshRow (syncEndpoint st).1.products
          (syncEndpoint st).1.mpds))).1 = (syncEndpoint st).1.sku_master
    rw [show (syncEndpoint st).1.products = st.products from rfl,
      show (syncEndpoint st).1.mpds = st.mpds from rfl, hs1, hmap2, hnoop]

end AmzSellMetrics
